import Mathlib

/-!
Verification of the DemARK population-orchestration and cross-sectional statistics
engine: the cstwMPC calibration notebook (seven discount-factor types, pooled wealth
statistics) and the income-misperception experiment
runRoszypalSchlaffmanExperiment (solve under perceived persistence, simulate under
actual persistence, then pool and compute inequality statistics).

Real-valued quantities are embedded as rationals.  The external HARK solver and
simulator are universally quantified functions; the temporal attribute-mutation
sequences of the notebooks are embedded as explicit state-passing.  Components that
the notebooks import from the HARK library (distribution discretization, Lorenz
shares, percentile-bucketed subpopulation averages) are not under src/ and are
modelled from the spec, as marked on each such definition.
-/

set_option maxRecDepth 4000000

namespace DemARK

/-- Error taxonomy of the distributional statistics component (spec section 7);
only the constructors the verified claims exercise are carried. -/
inductive StatError where
  | EmptyBucketError
  | EmptySampleError
deriving DecidableEq

/-- Arithmetic mean of a list of rationals, as np.mean computes it: the sum of
the entries divided by their number. -/
def mean (l : List ℚ) : ℚ := l.sum / l.length

/-- Ascending sort of a list of rationals (np.sort). -/
def sortAsc (l : List ℚ) : List ℚ := l.insertionSort (· ≤ ·)

/-- Modelled from the spec: HARK.utilities.getLorenzShares is imported by the
notebooks but its implementation is not under src/.  Spec 4.5: for a requested
population percentile p, return the cumulative share of total value held by the
bottom p fraction of the value-sorted population.  With n equally weighted agents
the bottom p fraction consists of the first ⌊p·n⌋ agents of the ascending sort. -/
def lorenzShareAt (values : List ℚ) (p : ℚ) : ℚ :=
  ((sortAsc values).take (Rat.floor (p * values.length)).toNat).sum / values.sum

/-- Modelled from the spec: the Lorenz share at each requested percentile. -/
def getLorenzShares (values : List ℚ) (percentiles : List ℚ) : List ℚ :=
  percentiles.map (lorenzShareAt values)

/-- Modelled from the spec: scan of the value-sorted sample for the first entry
whose cumulative (equal-weight) share reaches p; total is the population size and
acc the number of entries already passed.  Spec 4.5 WeightedPercentile, lower-bound
convention: smallest value whose cumulative share is at least p. -/
def percentileFrom (total acc : ℕ) : List ℚ → ℚ → ℚ
  | [], _ => 0
  | [x], _ => x
  | x :: y :: rest, p =>
    if p ≤ ((acc + 1 : ℕ) : ℚ) / (total : ℚ) then x
    else percentileFrom total (acc + 1) (y :: rest) p

/-- Modelled from the spec: equal-weight percentile of a sample (HARK.utilities
getPercentiles for a single percentile, as used by calcSubpopAvg). -/
def getPercentile (values : List ℚ) (p : ℚ) : ℚ :=
  percentileFrom values.length 0 (sortAsc values) p

/-- Modelled from the spec: the target-variable entries of the agents whose
grouping-variable entry lies in the inclusive percentile-derived value range of
one (loPercentile, hiPercentile) cutoff pair. -/
def bucketFor (target group : List ℚ) (c : ℚ × ℚ) : List ℚ :=
  ((target.zip group).filter
    (fun tg => decide (getPercentile group c.1 ≤ tg.2) &&
               decide (tg.2 ≤ getPercentile group c.2))).map Prod.fst

/-- Modelled from the spec: HARK.utilities.calcSubpopAvg is imported by the
notebook but its implementation is not under src/.  Spec 4.5
SubpopulationAverage: one unweighted mean of the target variable per cutoff pair,
in input order, over the agents whose grouping-variable entry falls in the
inclusive percentile-derived range; an empty bucket surfaces EmptyBucketError. -/
def calcSubpopAvg (target group : List ℚ) : List (ℚ × ℚ) → Except StatError (List ℚ)
  | [] => .ok []
  | c :: cs =>
    if bucketFor target group c = [] then .error .EmptyBucketError
    else
      match calcSubpopAvg target group cs with
      | .error e => .error e
      | .ok ms => .ok (mean (bucketFor target group c) :: ms)

/-- Modelled from the spec: HARK.distribution.Uniform(bot, top).approx(N).X is not
under src/.  Spec 4.1: partition the probability axis into N equal bins and return
the inverse CDF at each bin midpoint; for the uniform distribution on [bot, top]
point i is bot + (top - bot)·(2i+1)/(2N). -/
def uniformApproxX (bot top : ℚ) (N : ℕ) : List ℚ :=
  (List.range N).map (fun i : ℕ => bot + (top - bot) * (2 * (i : ℚ) + 1) / (2 * N))

/-- Modelled from the spec: the discretizer weights every returned point 1/N. -/
def uniformApproxWeights (N : ℕ) : List ℚ := List.replicate N (1 / (N : ℚ))

/-- Parameter dictionary of the persistent-shock notebook (BaselineDict in
IncExpectationExample).  Fields whose calibrated values are irrational floats
(the income-shock standard deviations and the log initial asset and income
levels) are omitted: they are constants that no observed operation varies. -/
structure ParamDict where
  CRRA : ℚ
  Rfree : ℚ
  DiscFac : ℚ
  LivPrb : ℚ
  IndL : ℚ
  UnempPrb : ℚ
  UnempPrbRet : ℚ
  IncUnemp : ℚ
  IncUnempRet : ℚ
  tax_rate : ℚ
  BoroCnstArt : ℚ
  PermGroFac : ℚ
  PermGroFacAgg : ℚ
  PrstIncCorr : ℚ
  aXtraMin : ℚ
  aXtraMax : ℚ
  AgentCount : ℕ
  T_age : ℕ
  T_sim : ℕ
  T_cycle : ℕ
  T_retire : ℕ
  aXtraCount : ℕ
  PermShkCount : ℕ
  TranShkCount : ℕ
deriving DecidableEq

/-- The calibrated baseline dictionary of IncExpectationExample (cell 5). -/
def BaselineDict : ParamDict where
  CRRA := 2
  Rfree := (101 / 100) / (1 - 1 / 160)
  DiscFac := 97 / 100
  LivPrb := 1 - 1 / 160
  IndL := 10 / 9
  UnempPrb := 5 / 100
  UnempPrbRet := 5 / 1000
  IncUnemp := 3 / 10
  IncUnempRet := 0
  tax_rate := 0
  BoroCnstArt := 0
  PermGroFac := 1
  PermGroFacAgg := 1
  PrstIncCorr := 99 / 100
  aXtraMin := 1 / 1000
  aXtraMax := 30
  AgentCount := 10000
  T_age := 400
  T_sim := 1200
  T_cycle := 1
  T_retire := 0
  aXtraCount := 48
  PermShkCount := 7
  TranShkCount := 7

/-- A constructed PersistentShockConsumerTypeX instance: the dictionary fields
plus the derived expected-persistent-income function (represented by the serial
correlation it was last rebuilt from, pLvlNextCorr) and the RNG seed.  The HARK
constructor derives pLvlNextFunc from the dictionary and leaves the seed at its
default 0; the experiment loop never assigns a seed. -/
structure AgentState extends ParamDict where
  pLvlNextCorr : ℚ
  seed : ℕ
deriving DecidableEq

/-- Construction of a consumer type from a dictionary (PersistentShockConsumerTypeX(**ThisDict)). -/
def mkAgent (d : ParamDict) : AgentState :=
  { toParamDict := d, pLvlNextCorr := d.PrstIncCorr, seed := 0 }

/-- The updatepLvlNextFunc method: rebuild the expected-persistent-income function
from the current PrstIncCorr attribute. -/
def updatepLvlNextFunc (a : AgentState) : AgentState :=
  { a with pLvlNextCorr := a.PrstIncCorr }

/-- The solution-relevant part of an agent's state: every field the external
solver consumes.  The simulation-only fields (AgentCount, T_sim, T_age, seed) are
not part of the solver's input. -/
structure SolveView where
  CRRA : ℚ
  Rfree : ℚ
  DiscFac : ℚ
  LivPrb : ℚ
  IndL : ℚ
  UnempPrb : ℚ
  UnempPrbRet : ℚ
  IncUnemp : ℚ
  IncUnempRet : ℚ
  tax_rate : ℚ
  BoroCnstArt : ℚ
  PermGroFac : ℚ
  PermGroFacAgg : ℚ
  PrstIncCorr : ℚ
  pLvlNextCorr : ℚ
  aXtraMin : ℚ
  aXtraMax : ℚ
  T_cycle : ℕ
  T_retire : ℕ
  aXtraCount : ℕ
  PermShkCount : ℕ
  TranShkCount : ℕ
deriving DecidableEq

/-- Projection of an agent's state onto the solver's input. -/
def solveView (a : AgentState) : SolveView :=
  { CRRA := a.CRRA, Rfree := a.Rfree, DiscFac := a.DiscFac, LivPrb := a.LivPrb,
    IndL := a.IndL, UnempPrb := a.UnempPrb, UnempPrbRet := a.UnempPrbRet,
    IncUnemp := a.IncUnemp, IncUnempRet := a.IncUnempRet, tax_rate := a.tax_rate,
    BoroCnstArt := a.BoroCnstArt, PermGroFac := a.PermGroFac,
    PermGroFacAgg := a.PermGroFacAgg, PrstIncCorr := a.PrstIncCorr,
    pLvlNextCorr := a.pLvlNextCorr, aXtraMin := a.aXtraMin, aXtraMax := a.aXtraMax,
    T_cycle := a.T_cycle, T_retire := a.T_retire, aXtraCount := a.aXtraCount,
    PermShkCount := a.PermShkCount, TranShkCount := a.TranShkCount }

/-- Per-type agent state at the moment solve() is invoked: the constructed type
with PrstIncCorr overridden to the perceived correlation and pLvlNextFunc rebuilt
(the two belief-override statements before ThisType.solve()). -/
def solveState (d : ParamDict) (CorrPcvd : ℚ) : AgentState :=
  updatepLvlNextFunc { mkAgent d with PrstIncCorr := CorrPcvd }

/-- Per-type agent state at the moment simulate() is invoked: after solve, the
actual correlation is substituted back, pLvlNextFunc rebuilt, and T_sim set
to 100 (the statements between ThisType.solve() and ThisType.simulate()). -/
def simState (d : ParamDict) (CorrAct CorrPcvd : ℚ) : AgentState :=
  { updatepLvlNextFunc { solveState d CorrPcvd with PrstIncCorr := CorrAct } with T_sim := 100 }

/-- One iteration of the experiment loop: construct the type, solve under the
perceived correlation, substitute the actual correlation, simulate.  The external
solver and simulator are passed in as functions of exactly the state they read. -/
def runOneType {Policy Panel : Type} (solve : SolveView → Policy)
    (simulate : Policy → AgentState → Panel) (d : ParamDict)
    (CorrAct CorrPcvd : ℚ) : Panel :=
  simulate (solve (solveView (solveState d CorrPcvd))) (simState d CorrAct CorrPcvd)

/-- The same cycle with the belief-override step omitted entirely: the type is
constructed from the dictionary (whose PrstIncCorr the experiment has already set
to the actual correlation), solved, and simulated with no correlation rewrites. -/
def runOneTypeNoOverride {Policy Panel : Type} (solve : SolveView → Policy)
    (simulate : Policy → AgentState → Panel) (d : ParamDict) : Panel :=
  simulate (solve (solveView (mkAgent d))) { mkAgent d with T_sim := 100 }

/-- The seven per-type dictionaries the experiment builds from a given baseline:
PrstIncCorr is set to the actual correlation once, then DiscFac is set to each
point of the discretized discount-factor distribution in turn. -/
def typeDictsFrom (base : ParamDict) (CorrAct DiscFacCenter DiscFacSpread : ℚ) : List ParamDict :=
  (uniformApproxX (DiscFacCenter - DiscFacSpread) (DiscFacCenter + DiscFacSpread) 7).map
    (fun x => { base with PrstIncCorr := CorrAct, DiscFac := x })

/-- The experiment's per-type dictionaries from the notebook's BaselineDict. -/
def typeDicts (CorrAct DiscFacCenter DiscFacSpread : ℚ) : List ParamDict :=
  typeDictsFrom BaselineDict CorrAct DiscFacCenter DiscFacSpread

/-- The panels of the experiment's seven types, in type order. -/
def typeList {Policy Panel : Type} (solve : SolveView → Policy)
    (simulate : Policy → AgentState → Panel)
    (CorrAct CorrPcvd DiscFacCenter DiscFacSpread : ℚ) : List Panel :=
  (typeDicts CorrAct DiscFacCenter DiscFacSpread).map
    (fun d => runOneType solve simulate d CorrAct CorrPcvd)

/-- The experiment's per-type panels with the belief-override step omitted from
every iteration of the loop. -/
def typeListNoOverride {Policy Panel : Type} (solve : SolveView → Policy)
    (simulate : Policy → AgentState → Panel)
    (CorrAct DiscFacCenter DiscFacSpread : ℚ) : List Panel :=
  (typeDicts CorrAct DiscFacCenter DiscFacSpread).map
    (fun d => runOneTypeNoOverride solve simulate d)

/-- One type's simulated panel: the terminal-period per-agent arrays the
experiment reads back (cLvlNow, aLvlNow, MPCnow, pLvlNow), plus the population
count the simulator was configured with. -/
structure SimPanel where
  AgentCount : ℕ
  cLvl : List ℚ
  aLvl : List ℚ
  MPC : List ℚ
  pLvl : List ℚ
deriving DecidableEq

/-- The external simulator's contract (spec section 6): each panel array has
length exactly AgentCount. -/
def SimPanel.wf (p : SimPanel) : Prop :=
  p.cLvl.length = p.AgentCount ∧ p.aLvl.length = p.AgentCount ∧
  p.MPC.length = p.AgentCount ∧ p.pLvl.length = p.AgentCount

/-- Pooled consumption across types (np.concatenate of cLvlNow in type order). -/
def cLvlAll (panels : List SimPanel) : List ℚ := (panels.map SimPanel.cLvl).flatten

/-- Pooled assets across types (np.concatenate of aLvlNow in type order). -/
def aLvlAll (panels : List SimPanel) : List ℚ := (panels.map SimPanel.aLvl).flatten

/-- Pooled MPC across types (np.concatenate of MPCnow in type order). -/
def MPCAll (panels : List SimPanel) : List ℚ := (panels.map SimPanel.MPC).flatten

/-- Pooled permanent income across types (np.concatenate of pLvlNow in type order). -/
def pLvlAll (panels : List SimPanel) : List ℚ := (panels.map SimPanel.pLvl).flatten

/-- Offset of type t in every pooled array: the observations contributed by the
earlier types. -/
def typeOffset (panels : List SimPanel) (t : ℕ) : ℕ :=
  ((panels.take t).map (fun p => p.AgentCount)).sum

/-- The experiment's interior percentile grid, np.linspace(0.001, 0.999, 201). -/
def wealthPercentileGrid : List ℚ :=
  (List.range 201).map (fun k => 1 / 1000 + (k : ℚ) * ((999 / 1000 - 1 / 1000) / 200))

/-- The Lorenz ordinates the experiment assembles: the shares on the interior
grid with 0 and 1 stuck at the boundaries (Lorenz_init after the concatenation). -/
def lorenzWithEndpoints (aLvl : List ℚ) : List ℚ :=
  [0] ++ getLorenzShares aLvl wealthPercentileGrid ++ [1]

/-- The Gini coefficient exactly as the experiment computes it:
1.0 - 2.0 * np.mean(Lorenz_init[1]).  Lorenz_init is a one-dimensional array, so
Lorenz_init[1] is the single share at the first interior percentile 0.001 and
np.mean of that scalar is the scalar itself. -/
def giniOf (aLvl : List ℚ) : ℚ := 1 - 2 * (lorenzWithEndpoints aLvl).getD 1 0

/-- The aggregate wealth-to-income ratio of the experiment:
np.mean(aLvl_all) / np.mean(pLvl_all). -/
def aggWealthRatioOf (aLvl pLvl : List ℚ) : ℚ := mean aLvl / mean pLvl

/-- The income-quintile cutoff pairs passed to calcSubpopAvg. -/
def MPCcutoffs : List (ℚ × ℚ) :=
  [(0, 1/5), (1/5, 2/5), (2/5, 3/5), (3/5, 4/5), (4/5, 1)]

/-- The four values runRoszypalSchlaffmanExperiment returns. -/
structure ExperimentOutput where
  AggWealthRatio : ℚ
  LorenzX : List ℚ
  LorenzY : List ℚ
  Gini : ℚ
  Avg_MPC : Except StatError (List ℚ)

/-- The full experiment from a given baseline dictionary: build the seven types,
run each through the perceived-solve / actual-simulate cycle, pool the four
outcome arrays, and compute the aggregate ratio, Lorenz curve, Gini and
quintile-average MPC exactly as the notebook does. -/
def runExperimentFrom {Policy : Type} (solve : SolveView → Policy)
    (simulate : Policy → AgentState → SimPanel) (base : ParamDict)
    (CorrAct CorrPcvd DiscFacCenter DiscFacSpread : ℚ) : ExperimentOutput :=
  let panels := (typeDictsFrom base CorrAct DiscFacCenter DiscFacSpread).map
    (fun d => runOneType solve simulate d CorrAct CorrPcvd)
  { AggWealthRatio := aggWealthRatioOf (aLvlAll panels) (pLvlAll panels)
    LorenzX := [0] ++ wealthPercentileGrid ++ [1]
    LorenzY := lorenzWithEndpoints (aLvlAll panels)
    Gini := giniOf (aLvlAll panels)
    Avg_MPC := calcSubpopAvg (MPCAll panels) (pLvlAll panels) MPCcutoffs }

/-- runRoszypalSchlaffmanExperiment itself, from the notebook's BaselineDict. -/
def runRoszypalSchlaffmanExperiment {Policy : Type} (solve : SolveView → Policy)
    (simulate : Policy → AgentState → SimPanel)
    (CorrAct CorrPcvd DiscFacCenter DiscFacSpread : ℚ) : ExperimentOutput :=
  runExperimentFrom solve simulate BaselineDict CorrAct CorrPcvd DiscFacCenter DiscFacSpread

/-- An agent type of the cstwMPC notebook (part_000): the calibrated fields its
type-construction loop copies and the two it overrides.  Fields with irrational
calibrated values (shock standard deviations, log initial assets) are omitted:
the loop never varies them. -/
structure CstwAgent where
  CRRA : ℚ
  Rfree : ℚ
  PermGroFac : ℚ
  UnempPrb : ℚ
  IncUnemp : ℚ
  BoroCnstArt : ℚ
  LivPrb : ℚ
  DiscFac : ℚ
  IndL : ℚ
  aXtraMin : ℚ
  aXtraMax : ℚ
  T_sim : ℕ
  T_age : ℕ
  AgentCount : ℕ
  seed : ℕ
deriving DecidableEq

/-- BaselineType of part_000: IndShockConsumerType built from
cstwMPC_calibrated_parameters; the HARK constructor leaves the seed at 0. -/
def cstwBaselineType : CstwAgent where
  CRRA := 1
  Rfree := (101 / 100) / (1 - 1 / 160)
  PermGroFac := 1
  UnempPrb := 7 / 100
  IncUnemp := 15 / 100
  BoroCnstArt := 0
  LivPrb := 1 - 1 / 160
  DiscFac := 97 / 100
  IndL := 10 / 9
  aXtraMin := 1 / 100000
  aXtraMax := 40
  T_sim := 1200
  T_age := 400
  AgentCount := 10000
  seed := 0

/-- The discretized discount-factor distribution of part_000:
Uniform(0.9855583 - 0.0085, 0.9855583 + 0.0085).approx(7).X. -/
def cstwDiscFacDstn : List ℚ :=
  uniformApproxX (9855583 / 10000000 - 85 / 10000) (9855583 / 10000000 + 85 / 10000) 7

/-- The MyTypes construction loop of part_000: for each index nn, deep-copy the
baseline type, set DiscFac to the nn-th discretized value, and set the seed
to nn. -/
def MyTypes (baseline : CstwAgent) (dstn : List ℚ) : List CstwAgent :=
  (List.range dstn.length).map
    (fun nn => { baseline with DiscFac := dstn.getD nn 0, seed := nn })

/-- A default panel, used only as the out-of-range value of list lookups. -/
def emptyPanel : SimPanel :=
  { AgentCount := 0, cLvl := [], aLvl := [], MPC := [], pLvl := [] }

section ClaimC3

/-- C3: in every per-type solve/simulate cycle of the misperception experiment,
the agent state passed to the solve() invocation carries the perceived
correlation CorrPcvd (both as the raw PrstIncCorr attribute and in the rebuilt
expected-persistent-income function), the state passed to the simulate()
invocation carries the actual correlation CorrAct in both places, and the
simulated panel is exactly the simulator applied, under the actual-correlation
state, to the policy solved under the perceived-correlation state. -/
theorem perceived_at_solve_actual_at_simulate :
    ∀ {Policy Panel : Type} (solve : SolveView → Policy)
      (simulate : Policy → AgentState → Panel) (d : ParamDict) (CorrAct CorrPcvd : ℚ),
      (solveView (solveState d CorrPcvd)).PrstIncCorr = CorrPcvd ∧
      (solveView (solveState d CorrPcvd)).pLvlNextCorr = CorrPcvd ∧
      (simState d CorrAct CorrPcvd).PrstIncCorr = CorrAct ∧
      (simState d CorrAct CorrPcvd).pLvlNextCorr = CorrAct ∧
      runOneType solve simulate d CorrAct CorrPcvd =
        simulate (solve (solveView (solveState d CorrPcvd))) (simState d CorrAct CorrPcvd) := by
  intro Policy Panel solve simulate d CA CP
  exact ⟨rfl, rfl, rfl, rfl, rfl⟩

end ClaimC3

section ClaimC4

/-- C4: when the perceived and the actual persistence coincide, every panel of
the experiment's type list equals the corresponding panel of the run whose loop
omits the belief-override step entirely, for every external solver and
simulator. -/
theorem equal_beliefs_override_is_noop :
    ∀ {Policy Panel : Type} (solve : SolveView → Policy)
      (simulate : Policy → AgentState → Panel)
      (CorrAct CorrPcvd DiscFacCenter DiscFacSpread : ℚ),
      CorrPcvd = CorrAct →
      typeList solve simulate CorrAct CorrPcvd DiscFacCenter DiscFacSpread =
        typeListNoOverride solve simulate CorrAct DiscFacCenter DiscFacSpread := by
  intro Policy Panel solve simulate CA CP c s h
  subst h
  rfl

/-- Witness for C4 at the notebook's own test call with both correlations set
to 0.97 and a concrete solver and simulator. -/
theorem equal_beliefs_override_is_noop_witness :
    typeList (fun v => v.DiscFac) (fun p st => [p + st.PrstIncCorr + (st.T_sim : ℚ)])
        (97/100) (97/100) (9867/10000) (67/10000) =
      typeListNoOverride (fun v => v.DiscFac) (fun p st => [p + st.PrstIncCorr + (st.T_sim : ℚ)])
        (97/100) (9867/10000) (67/10000) :=
  equal_beliefs_override_is_noop
    (fun v => v.DiscFac) (fun p st => [p + st.PrstIncCorr + (st.T_sim : ℚ)])
    (97/100) (97/100) (9867/10000) (67/10000) rfl

end ClaimC4

section ClaimC10

/-- C10: the baseline dictionary specifies a simulation horizon of 1200 periods,
but every per-type agent state at the simulate() invocation has T_sim = 100, and
the experiment's output is entirely independent of the horizon in the baseline
dictionary, for every solver and simulator. -/
theorem horizon_overwritten_to_100 :
    ∀ {Policy : Type} (solve : SolveView → Policy)
      (simulate : Policy → AgentState → SimPanel) (base : ParamDict) (v w : ℕ)
      (CorrAct CorrPcvd DiscFacCenter DiscFacSpread : ℚ),
      BaselineDict.T_sim = 1200 ∧
      (∀ (d : ParamDict) (CA CP : ℚ), (simState d CA CP).T_sim = 100) ∧
      runExperimentFrom solve simulate { base with T_sim := v }
          CorrAct CorrPcvd DiscFacCenter DiscFacSpread =
        runExperimentFrom solve simulate { base with T_sim := w }
          CorrAct CorrPcvd DiscFacCenter DiscFacSpread := by
  intro Policy solve simulate base v w CA CP c s
  exact ⟨rfl, fun d cA cP => rfl, rfl⟩

end ClaimC10

section ClaimC2

/-- Counterexample to C2: in the type list built inside
runRoszypalSchlaffmanExperiment (here at the notebook's own test call), the first
and the second type carry the same random seed, the constructor default 0, so two
distinct simulated types do share a random seed and no type's seed equals its
nonzero type index. -/
theorem experiment_types_share_default_seed :
    (typeDicts (97/100) (9867/10000) (67/10000)).length = 7 ∧
    (mkAgent ((typeDicts (97/100) (9867/10000) (67/10000)).getD 0 BaselineDict)).seed =
      (mkAgent ((typeDicts (97/100) (9867/10000) (67/10000)).getD 1 BaselineDict)).seed ∧
    (simState ((typeDicts (97/100) (9867/10000) (67/10000)).getD 1 BaselineDict)
        (97/100) (9831/10000)).seed = 0 :=
  ⟨rfl, rfl, rfl⟩

/-- C2 amended: the MyTypes construction loop of part_000 produces, for each
index nn, a copy of the baseline differing only in the discretized DiscFac field
and in the seed, with seed equal to the type index nn — hence no two of those
types share a seed; but the types built inside runRoszypalSchlaffmanExperiment
never receive a seed assignment and all carry the constructor-default seed 0. -/
theorem myTypes_seeds_unique_experiment_seeds_shared :
    ∀ (baseline : CstwAgent) (dstn : List ℚ) (i j : ℕ),
      i < dstn.length → j < dstn.length →
      (MyTypes baseline dstn).getD i cstwBaselineType =
        { baseline with DiscFac := dstn.getD i 0, seed := i } ∧
      (i ≠ j →
        ((MyTypes baseline dstn).getD i cstwBaselineType).seed ≠
          ((MyTypes baseline dstn).getD j cstwBaselineType).seed) ∧
      (∀ CorrAct DiscFacCenter DiscFacSpread : ℚ,
        (typeDicts CorrAct DiscFacCenter DiscFacSpread).map (fun d => (mkAgent d).seed) =
          List.replicate 7 0) := by
  intro baseline dstn i j hi hj
  have hlen : (MyTypes baseline dstn).length = dstn.length := by
    simp [MyTypes]
  have hget : ∀ (k : ℕ), k < dstn.length →
      (MyTypes baseline dstn).getD k cstwBaselineType =
        { baseline with DiscFac := dstn.getD k 0, seed := k } := by
    intro k hk
    rw [List.getD_eq_getElem _ _ (by rw [hlen]; exact hk)]
    simp [MyTypes]
  refine ⟨hget i hi, ?_, ?_⟩
  · intro hij
    rw [hget i hi, hget j hj]
    simpa using hij
  · intro CA c s
    rfl

/-- Witness for C2's amended statement at the concrete inputs of part_000:
types 0 and 1 of the seven-point discount-factor discretization. -/
theorem myTypes_seeds_witness :
    (0 : ℕ) < cstwDiscFacDstn.length ∧ (1 : ℕ) < cstwDiscFacDstn.length ∧
    ((MyTypes cstwBaselineType cstwDiscFacDstn).getD 0 cstwBaselineType).seed ≠
      ((MyTypes cstwBaselineType cstwDiscFacDstn).getD 1 cstwBaselineType).seed :=
  ⟨by decide, by decide,
    (myTypes_seeds_unique_experiment_seeds_shared cstwBaselineType cstwDiscFacDstn 0 1
      (by decide) (by decide)).2.1 (by decide)⟩

end ClaimC2

section SortLemmas

/-- The ascending sort is sorted. -/
theorem sortAsc_sorted (l : List ℚ) : List.Sorted (· ≤ ·) (sortAsc l) :=
  List.sorted_insertionSort _ l

/-- The ascending sort is a permutation of its input. -/
theorem sortAsc_perm (l : List ℚ) : (sortAsc l).Perm l :=
  List.perm_insertionSort _ l

/-- Sorting preserves length. -/
theorem sortAsc_length (l : List ℚ) : (sortAsc l).length = l.length :=
  (sortAsc_perm l).length_eq

/-- Sorting preserves the sum. -/
theorem sortAsc_sum (l : List ℚ) : (sortAsc l).sum = l.sum :=
  (sortAsc_perm l).sum_eq

/-- Sorting preserves membership. -/
theorem sortAsc_mem (l : List ℚ) (x : ℚ) : x ∈ sortAsc l ↔ x ∈ l :=
  (sortAsc_perm l).mem_iff

/-- The rational floor of a natural number is that number. -/
theorem ratFloor_natCast (n : ℕ) : Rat.floor ((n : ℕ) : ℚ) = n := by
  rw [Rat.floor_def']
  simp

/-- The rational floor is monotone. -/
theorem ratFloor_mono {p q : ℚ} (h : p ≤ q) : Rat.floor p ≤ Rat.floor q :=
  Rat.le_floor.mpr (le_trans (Rat.le_floor.mp (le_refl _)) h)

/-- Prefix sums of a list of nonnegative rationals are monotone in the prefix
length. -/
theorem take_sum_mono (l : List ℚ) (hpos : ∀ x ∈ l, 0 ≤ x) {m k : ℕ} (h : m ≤ k) :
    (l.take m).sum ≤ (l.take k).sum := by
  have hk : m + (k - m) = k := by omega
  have hnn : 0 ≤ ((l.drop m).take (k - m)).sum :=
    List.sum_nonneg (fun x hx => hpos x (List.drop_subset m l (List.take_subset _ _ hx)))
  calc (l.take m).sum ≤ (l.take m).sum + ((l.drop m).take (k - m)).sum := by linarith
    _ = (l.take (m + (k - m))).sum := by rw [List.take_add, List.sum_append]
    _ = (l.take k).sum := by rw [hk]

end SortLemmas

section LorenzLemmas

/-- The Lorenz share at percentile 0 is exactly 0. -/
theorem lorenzShareAt_zero (values : List ℚ) : lorenzShareAt values 0 = 0 := by
  unfold lorenzShareAt
  rw [zero_mul]
  norm_num [Rat.floor_def']

/-- The Lorenz share at percentile 1 is exactly 1, provided the total value is
nonzero. -/
theorem lorenzShareAt_one (values : List ℚ) (h : values.sum ≠ 0) :
    lorenzShareAt values 1 = 1 := by
  unfold lorenzShareAt
  rw [one_mul, ratFloor_natCast, Int.toNat_natCast,
      List.take_of_length_le (le_of_eq (sortAsc_length values)),
      sortAsc_sum, div_self h]

/-- The Lorenz share is monotone in the percentile when every value is
nonnegative. -/
theorem lorenzShareAt_mono (values : List ℚ) (hpos : ∀ x ∈ values, 0 ≤ x)
    {p q : ℚ} (hpq : p ≤ q) : lorenzShareAt values p ≤ lorenzShareAt values q := by
  unfold lorenzShareAt
  have hS : (0 : ℚ) ≤ values.sum := List.sum_nonneg hpos
  have hk : (Rat.floor (p * values.length)).toNat ≤ (Rat.floor (q * values.length)).toNat := by
    apply Int.toNat_le_toNat
    exact ratFloor_mono (mul_le_mul_of_nonneg_right hpq (by positivity))
  have hsum : ((sortAsc values).take (Rat.floor (p * values.length)).toNat).sum ≤
      ((sortAsc values).take (Rat.floor (q * values.length)).toNat).sum :=
    take_sum_mono (sortAsc values) (fun x hx => hpos x ((sortAsc_mem values x).mp hx)) hk
  exact div_le_div_of_nonneg_right hsum hS

end LorenzLemmas

section ClaimC5

attribute [local semireducible] Rat.add Rat.mul Rat.sub Rat.inv

/-- Counterexample to C5: on the sorted percentile grid [0, 1/2, 1], which
contains both endpoints, the Lorenz shares of the two-agent population with net
worths -1 and 2 are [0, -1, 1], which is not monotonically non-decreasing: the
share drops from 0 at percentile 0 to -1 at percentile 1/2. -/
theorem lorenz_not_monotone_with_negative_values :
    List.Sorted (· ≤ ·) [(0 : ℚ), 1/2, 1] ∧
    getLorenzShares [(-1 : ℚ), 2] [0, 1/2, 1] = [0, -1, 1] ∧
    ¬ List.Sorted (· ≤ ·) (getLorenzShares [(-1 : ℚ), 2] [0, 1/2, 1]) := by
  refine ⟨?_, ?_, ?_⟩ <;> decide

/-- C5 amended: the Lorenz share at percentile 0 is exactly 0; the share at
percentile 1 is exactly 1 provided the total value is nonzero; and on every
ascending percentile grid the share sequence is monotonically non-decreasing
provided every value is nonnegative (with negative net worth the shares at low
percentiles are negative, hence below share(0) = 0, as the spec itself
anticipates). -/
theorem lorenz_endpoints_exact_monotone_when_nonneg :
    ∀ (values grid : List ℚ),
      lorenzShareAt values 0 = 0 ∧
      (values.sum ≠ 0 → lorenzShareAt values 1 = 1) ∧
      (List.Sorted (· ≤ ·) grid → (∀ x ∈ values, 0 ≤ x) →
        List.Sorted (· ≤ ·) (getLorenzShares values grid)) := by
  intro values grid
  refine ⟨lorenzShareAt_zero values, lorenzShareAt_one values, ?_⟩
  intro hgrid hpos
  exact List.Pairwise.map _ (fun a b hab => lorenzShareAt_mono values hpos hab) hgrid

/-- Witness for C5's amended statement on the population [1, 2, 3] and the grid
[0, 1/2, 1]. -/
theorem lorenz_endpoints_witness :
    lorenzShareAt [(1 : ℚ), 2, 3] 0 = 0 ∧ lorenzShareAt [(1 : ℚ), 2, 3] 1 = 1 ∧
    List.Sorted (· ≤ ·) (getLorenzShares [(1 : ℚ), 2, 3] [0, 1/2, 1]) :=
  ⟨(lorenz_endpoints_exact_monotone_when_nonneg [(1 : ℚ), 2, 3] [0, 1/2, 1]).1,
   (lorenz_endpoints_exact_monotone_when_nonneg [(1 : ℚ), 2, 3] [0, 1/2, 1]).2.1 (by decide),
   (lorenz_endpoints_exact_monotone_when_nonneg [(1 : ℚ), 2, 3] [0, 1/2, 1]).2.2
     (by decide) (by decide)⟩

end ClaimC5

section DiscretizerLemmas

/-- Closed form of the i-th discretized point. -/
theorem uniformApproxX_getD (bot top : ℚ) (N i : ℕ) (h : i < N) :
    (uniformApproxX bot top N).getD i 0 =
      bot + (top - bot) * (2 * (i : ℚ) + 1) / (2 * N) := by
  rw [uniformApproxX, List.getD_eq_getElem?_getD, List.getElem?_map, List.getElem?_range h]
  rfl

/-- The discretizer returns exactly N points. -/
theorem uniformApproxX_length (bot top : ℚ) (N : ℕ) :
    (uniformApproxX bot top N).length = N := by
  rw [uniformApproxX, List.length_map, List.length_range]

end DiscretizerLemmas

section ClaimC8

/-- C8: for every center c, positive spread s and count N of at least 1, the
discretized uniform distribution has exactly N points; they are strictly
increasing in the bin index, strictly inside the open interval (c-s, c+s),
symmetric about c, evenly spaced with gap 2s/N, and every point carries
weight 1/N. -/
theorem uniform_discretizer_strictly_increasing_interior_symmetric :
    ∀ (c s : ℚ) (N : ℕ), 1 ≤ N → 0 < s →
      (uniformApproxX (c - s) (c + s) N).length = N ∧
      (∀ i j : ℕ, i < j → j < N →
        (uniformApproxX (c - s) (c + s) N).getD i 0 <
          (uniformApproxX (c - s) (c + s) N).getD j 0) ∧
      (∀ x ∈ uniformApproxX (c - s) (c + s) N, c - s < x ∧ x < c + s) ∧
      (∀ i : ℕ, i < N →
        (uniformApproxX (c - s) (c + s) N).getD i 0 +
          (uniformApproxX (c - s) (c + s) N).getD (N - 1 - i) 0 = 2 * c) ∧
      (∀ i : ℕ, i + 1 < N →
        (uniformApproxX (c - s) (c + s) N).getD (i + 1) 0 -
          (uniformApproxX (c - s) (c + s) N).getD i 0 = 2 * s / N) ∧
      uniformApproxWeights N = List.replicate N (1 / (N : ℚ)) := by
  intro c s N hN hs
  have hN0 : (0 : ℚ) < (N : ℚ) := by exact_mod_cast Nat.lt_of_lt_of_le Nat.zero_lt_one hN
  have h2N : (0 : ℚ) < 2 * (N : ℚ) := by linarith
  have hts : c + s - (c - s) = 2 * s := by ring
  refine ⟨uniformApproxX_length _ _ _, ?_, ?_, ?_, ?_, rfl⟩
  · intro i j hij hj
    rw [uniformApproxX_getD _ _ _ _ (lt_trans hij hj), uniformApproxX_getD _ _ _ _ hj, hts]
    have hij' : (i : ℚ) < (j : ℚ) := by exact_mod_cast hij
    have key : 2 * s * (2 * (j : ℚ) + 1) / (2 * N) - 2 * s * (2 * (i : ℚ) + 1) / (2 * N) =
        2 * s * ((j : ℚ) - i) / N := by
      field_simp
      ring
    have pos : 0 < 2 * s * ((j : ℚ) - i) / N :=
      div_pos (mul_pos (by linarith) (sub_pos.mpr hij')) hN0
    linarith
  · intro x hx
    obtain ⟨k, hk, rfl⟩ := List.mem_map.mp hx
    have hk' : k < N := List.mem_range.mp hk
    have hkN : (k : ℚ) < (N : ℚ) := by exact_mod_cast hk'
    rw [hts]
    constructor
    · have hp : 0 < 2 * s * (2 * (k : ℚ) + 1) / (2 * N) := by positivity
      linarith
    · have hk1 : (k : ℚ) + 1 ≤ (N : ℚ) := by exact_mod_cast hk'
      have hub : 2 * s * (2 * (k : ℚ) + 1) / (2 * N) < 2 * s := by
        rw [div_lt_iff₀ h2N]
        nlinarith [mul_pos hs (show (0 : ℚ) < 2 * N - (2 * k + 1) by linarith)]
      linarith
  · intro i hi
    have hJ : N - 1 - i < N := by omega
    rw [uniformApproxX_getD _ _ _ _ hi, uniformApproxX_getD _ _ _ _ hJ, hts]
    have h1 : 1 + i ≤ N := by omega
    have hcast : ((N - 1 - i : ℕ) : ℚ) = (N : ℚ) - (1 + i) := by
      rw [Nat.sub_sub, Nat.cast_sub h1]
      push_cast
      ring
    rw [hcast]
    field_simp
    ring
  · intro i hi
    rw [uniformApproxX_getD _ _ _ _ hi, uniformApproxX_getD _ _ _ _ (by omega), hts]
    push_cast
    field_simp
    ring

/-- Witness for C8 with center 2, spread 1/2 and three points: the first two
points are strictly increasing and the first point lies strictly inside the
bounds. -/
theorem uniform_discretizer_witness :
    (1 : ℕ) ≤ 3 ∧ (0 : ℚ) < 1/2 ∧
    (uniformApproxX (2 - 1/2) (2 + 1/2) 3).getD 0 0 <
      (uniformApproxX (2 - 1/2) (2 + 1/2) 3).getD 1 0 :=
  ⟨by decide, by norm_num,
   (uniform_discretizer_strictly_increasing_interior_symmetric 2 (1/2) 3
      (by decide) (by norm_num)).2.1 0 1 (by decide) (by decide)⟩

end ClaimC8

section PercentileLemmas

/-- At percentile 0 the cumulative-share scan stops at the first entry. -/
theorem percentileFrom_zero (n acc : ℕ) (x : ℚ) (rest : List ℚ) :
    percentileFrom n acc (x :: rest) 0 = x := by
  cases rest with
  | nil => rfl
  | cons y t =>
    unfold percentileFrom
    rw [if_pos]
    positivity

/-- The cumulative-share scan always returns a member of the scanned list. -/
theorem percentileFrom_mem (l : List ℚ) :
    ∀ (n acc : ℕ) (p : ℚ), l ≠ [] → percentileFrom n acc l p ∈ l := by
  induction l with
  | nil => intro n acc p h; exact absurd rfl h
  | cons x t ih =>
    intro n acc p _
    cases t with
    | nil => unfold percentileFrom; exact List.mem_singleton_self x
    | cons y t2 =>
      unfold percentileFrom
      by_cases hc : p ≤ ((acc + 1 : ℕ) : ℚ) / (n : ℚ)
      · rw [if_pos hc]; exact List.mem_cons_self x (y :: t2)
      · rw [if_neg hc]
        exact List.mem_cons_of_mem x (ih n (acc + 1) p (by simp))

/-- At percentile 1, every entry of a sorted sample is at most the value the
cumulative-share scan returns: no proper prefix of a population has cumulative
share 1, so the scan runs to the maximum. -/
theorem percentileFrom_one_ub (l : List ℚ) :
    ∀ (n acc : ℕ), List.Sorted (· ≤ ·) l → acc + l.length = n →
      ∀ x ∈ l, x ≤ percentileFrom n acc l 1 := by
  induction l with
  | nil => intro n acc _ _ x hx; exact absurd hx (List.not_mem_nil x)
  | cons a t ih =>
    intro n acc hsorted hlen x hx
    cases t with
    | nil =>
      unfold percentileFrom
      rcases List.mem_singleton.mp hx with rfl
      exact le_refl x
    | cons y t2 =>
      have hn2 : acc + 2 ≤ n := by
        simp only [List.length_cons] at hlen
        omega
      have hn0 : (0 : ℚ) < (n : ℚ) := by
        have : 0 < n := by omega
        exact_mod_cast this
      have hlt : ((acc + 1 : ℕ) : ℚ) / (n : ℚ) < 1 := by
        rw [div_lt_one hn0]
        have : acc + 1 < n := by omega
        exact_mod_cast this
      unfold percentileFrom
      rw [if_neg (not_le.mpr hlt)]
      have htail : List.Sorted (· ≤ ·) (y :: t2) := hsorted.of_cons
      have hrec := ih n (acc + 1) htail (by simp only [List.length_cons] at hlen ⊢; omega)
      rcases List.mem_cons.mp hx with rfl | hxt
      · have hmem : percentileFrom n (acc + 1) (y :: t2) 1 ∈ y :: t2 :=
          percentileFrom_mem (y :: t2) n (acc + 1) 1 (by simp)
        exact List.rel_of_sorted_cons hsorted _ hmem
      · exact hrec x hxt

/-- The percentile at p = 0 is a lower bound of the whole sample. -/
theorem getPercentile_zero_le (values : List ℚ) (hne : values ≠ []) :
    ∀ x ∈ values, getPercentile values 0 ≤ x := by
  intro x hx
  unfold getPercentile
  have hs : sortAsc values ≠ [] := by
    intro h0
    apply hne
    have hl := sortAsc_length values
    rw [h0] at hl
    exact List.length_eq_zero.mp hl.symm
  obtain ⟨a, t, hat⟩ := List.exists_cons_of_ne_nil hs
  rw [hat, percentileFrom_zero]
  have hx' : x ∈ a :: t := by rw [← hat]; exact (sortAsc_mem values x).mpr hx
  have hsorted := sortAsc_sorted values
  rw [hat] at hsorted
  rcases List.mem_cons.mp hx' with rfl | h
  · exact le_refl x
  · exact List.rel_of_sorted_cons hsorted x h

/-- The percentile at p = 1 is an upper bound of the whole sample. -/
theorem getPercentile_one_ge (values : List ℚ) :
    ∀ x ∈ values, x ≤ getPercentile values 1 := by
  intro x hx
  unfold getPercentile
  apply percentileFrom_one_ub (sortAsc values) values.length 0 (sortAsc_sorted values)
  · rw [sortAsc_length, Nat.zero_add]
  · exact (sortAsc_mem values x).mpr hx

/-- Zipping a list with itself pairs every entry with itself. -/
theorem zip_self_eq_map (l : List ℚ) : l.zip l = l.map (fun x => (x, x)) := by
  induction l with
  | nil => rfl
  | cons x t ih => simp [ih]

/-- With the full-range cutoff (0, 1) and the grouping variable as its own
target, the bucket is the entire sample. -/
theorem bucketFor_self_full (group : List ℚ) (hne : group ≠ []) :
    bucketFor group group (0, 1) = group := by
  unfold bucketFor
  have hall : ∀ tg ∈ group.zip group,
      (decide (getPercentile group (0, (1 : ℚ)).1 ≤ tg.2) &&
       decide (tg.2 ≤ getPercentile group (0, (1 : ℚ)).2)) = true := by
    intro tg htg
    obtain ⟨t1, t2⟩ := tg
    have hmem : t2 ∈ group := (List.of_mem_zip htg).2
    simp only [Bool.and_eq_true, decide_eq_true_eq]
    exact ⟨getPercentile_zero_le group hne t2 hmem, getPercentile_one_ge group t2 hmem⟩
  rw [List.filter_eq_self.mpr hall]
  exact List.map_fst_zip group group (le_refl _)

/-- A successful subpopulation-average call returns exactly the per-cutoff
bucket means, in input order. -/
theorem calcSubpopAvg_ok (target group : List ℚ) :
    ∀ (cutoffs : List (ℚ × ℚ)) (rs : List ℚ),
      calcSubpopAvg target group cutoffs = .ok rs →
      rs = cutoffs.map (fun c => mean (bucketFor target group c)) := by
  intro cutoffs
  induction cutoffs with
  | nil =>
    intro rs h
    simp only [calcSubpopAvg, Except.ok.injEq] at h
    simp [← h]
  | cons c cs ih =>
    intro rs h
    unfold calcSubpopAvg at h
    by_cases hb : bucketFor target group c = []
    · rw [if_pos hb] at h
      exact absurd h (by simp)
    · rw [if_neg hb] at h
      cases hcs : calcSubpopAvg target group cs with
      | error e => rw [hcs] at h; exact absurd h (by simp)
      | ok ms =>
        rw [hcs] at h
        simp only [Except.ok.injEq] at h
        rw [← h, List.map_cons, ih ms hcs]

/-- An empty bucket for any cutoff pair makes the whole call fail with
EmptyBucketError instead of producing a numeric result. -/
theorem calcSubpopAvg_empty_bucket (target group : List ℚ) :
    ∀ (cutoffs : List (ℚ × ℚ)) (c : ℚ × ℚ), c ∈ cutoffs →
      bucketFor target group c = [] →
      calcSubpopAvg target group cutoffs = .error .EmptyBucketError := by
  intro cutoffs
  induction cutoffs with
  | nil => intro c hc; exact absurd hc (List.not_mem_nil c)
  | cons c0 cs ih =>
    intro c hc hb
    unfold calcSubpopAvg
    by_cases hb0 : bucketFor target group c0 = []
    · rw [if_pos hb0]
    · rw [if_neg hb0]
      have hcs : c ∈ cs := by
        rcases List.mem_cons.mp hc with rfl | h
        · exact absurd hb hb0
        · exact h
      rw [ih c hcs hb]

/-- A single full-range cutoff with the grouping variable as its own target
returns the unweighted mean of the full sample. -/
theorem calcSubpopAvg_full_sample (group : List ℚ) (hne : group ≠ []) :
    calcSubpopAvg group group [(0, 1)] = .ok [mean group] := by
  unfold calcSubpopAvg
  rw [bucketFor_self_full group hne, if_neg hne]
  rfl

end PercentileLemmas

section ClaimC9

attribute [local semireducible] Rat.add Rat.mul Rat.sub Rat.inv

/-- C9: the subpopulation average returns one unweighted bucket mean per cutoff
pair in input order whenever it succeeds; the single cutoff (0, 1) with the
grouping variable as its own target returns the unweighted mean of the full
sample; and a cutoff whose bucket holds zero agents makes the call fail with
EmptyBucketError rather than return a numeric vector. -/
theorem subpop_avg_order_full_sample_empty_bucket :
    ∀ (target group : List ℚ) (cutoffs : List (ℚ × ℚ)) (rs : List ℚ),
      (calcSubpopAvg target group cutoffs = .ok rs →
        rs = cutoffs.map (fun c => mean (bucketFor target group c))) ∧
      (group ≠ [] → calcSubpopAvg group group [(0, 1)] = .ok [mean group]) ∧
      (∀ c ∈ cutoffs, bucketFor target group c = [] →
        calcSubpopAvg target group cutoffs = .error .EmptyBucketError) :=
  fun target group cutoffs rs =>
    ⟨calcSubpopAvg_ok target group cutoffs rs,
     calcSubpopAvg_full_sample group,
     fun c hc hb => calcSubpopAvg_empty_bucket target group cutoffs c hc hb⟩

/-- Witness for C9: on the sample [5, 7] grouped by itself with the single
cutoff (0, 1), the call succeeds with the full-sample mean 6. -/
theorem subpop_avg_witness :
    calcSubpopAvg [(5 : ℚ), 7] [(5 : ℚ), 7] [(0, 1)] = .ok [mean [(5 : ℚ), 7]] ∧
    mean [(5 : ℚ), 7] = 6 :=
  ⟨(subpop_avg_order_full_sample_empty_bucket [(5 : ℚ), 7] [(5 : ℚ), 7]
      [(0, 1)] []).2.1 (by decide),
   by decide⟩

end ClaimC9

section PoolingLemmas

/-- Indexing a flattened list of lists: the entry at (offset of block t) + j is
the j-th entry of block t. -/
theorem flatten_getD (ls : List (List ℚ)) :
    ∀ (t j : ℕ), t < ls.length → j < (ls.getD t []).length →
      ls.flatten.getD (((ls.take t).map List.length).sum + j) 0 =
        (ls.getD t []).getD j 0 := by
  induction ls with
  | nil => intro t j ht; exact absurd ht (by simp)
  | cons a tl ih =>
    intro t j ht hj
    cases t with
    | zero =>
      simp only [List.take_zero, List.map_nil, List.sum_nil, Nat.zero_add]
      rw [List.flatten_cons]
      exact List.getD_append _ _ _ _ (by simpa using hj)
    | succ t' =>
      simp only [List.take_succ_cons, List.map_cons, List.sum_cons]
      rw [List.flatten_cons, Nat.add_assoc,
          List.getD_append_right _ _ _ _ (Nat.le_add_right _ _), Nat.add_sub_cancel_left]
      exact ih t' j (by simpa using ht) (by simpa using hj)

/-- The length of one pooled variable: the sum of the per-type population
counts, with no renormalization. -/
theorem pooledVar_length (panels : List SimPanel) (f : SimPanel → List ℚ)
    (hf : ∀ p ∈ panels, (f p).length = p.AgentCount) :
    (panels.map f).flatten.length = (panels.map (fun p => p.AgentCount)).sum := by
  rw [List.length_flatten, List.map_map]
  congr 1
  exact List.map_congr_left (fun p hp => hf p hp)

/-- Indexing one pooled variable at a type offset recovers that type's own
panel entry. -/
theorem pooledVar_getD (panels : List SimPanel) (f : SimPanel → List ℚ)
    (hf : ∀ p ∈ panels, (f p).length = p.AgentCount) (t j : ℕ)
    (ht : t < panels.length) (hj : j < (panels.getD t emptyPanel).AgentCount) :
    (panels.map f).flatten.getD (typeOffset panels t + j) 0 =
      (f (panels.getD t emptyPanel)).getD j 0 := by
  have hmem : panels.getD t emptyPanel ∈ panels := by
    rw [List.getD_eq_getElem _ _ ht]
    exact List.getElem_mem ht
  have h1 : (panels.map f).getD t [] = f (panels.getD t emptyPanel) := by
    rw [List.getD_eq_getElem _ _ (by simpa using ht), List.getD_eq_getElem _ _ ht,
        List.getElem_map]
  have h2 : typeOffset panels t = (((panels.map f).take t).map List.length).sum := by
    unfold typeOffset
    rw [← List.map_take, List.map_map]
    exact congrArg List.sum
      (List.map_congr_left (fun p hp => (hf p (List.take_subset _ _ hp)).symm))
  have hj' : j < ((panels.map f).getD t []).length := by
    rw [h1, hf _ hmem]
    exact hj
  rw [h2, flatten_getD (panels.map f) t j (by simpa using ht) hj', h1]

end PoolingLemmas

section ClaimC6

/-- C6: pooling concatenates the per-type arrays in the fixed type order, so
each pooled variable has length equal to the sum of the per-type population
counts (each type contributes exactly its own AgentCount observations, with no
renormalization), and at the common position (offset of type t) + j every pooled
variable reads the j-th agent of type t's own panel, keeping the four pooled
variables aligned to the same simulated agent. -/
theorem pooled_arrays_concatenated_aligned :
    ∀ (panels : List SimPanel), (∀ p ∈ panels, p.wf) →
      ((cLvlAll panels).length = (panels.map (fun p => p.AgentCount)).sum ∧
       (aLvlAll panels).length = (panels.map (fun p => p.AgentCount)).sum ∧
       (MPCAll panels).length = (panels.map (fun p => p.AgentCount)).sum ∧
       (pLvlAll panels).length = (panels.map (fun p => p.AgentCount)).sum) ∧
      (∀ (t j : ℕ), t < panels.length → j < (panels.getD t emptyPanel).AgentCount →
        (cLvlAll panels).getD (typeOffset panels t + j) 0 =
          ((panels.getD t emptyPanel).cLvl).getD j 0 ∧
        (aLvlAll panels).getD (typeOffset panels t + j) 0 =
          ((panels.getD t emptyPanel).aLvl).getD j 0 ∧
        (MPCAll panels).getD (typeOffset panels t + j) 0 =
          ((panels.getD t emptyPanel).MPC).getD j 0 ∧
        (pLvlAll panels).getD (typeOffset panels t + j) 0 =
          ((panels.getD t emptyPanel).pLvl).getD j 0) := by
  intro panels hwf
  refine ⟨⟨?_, ?_, ?_, ?_⟩, ?_⟩
  · exact pooledVar_length panels _ (fun p hp => (hwf p hp).1)
  · exact pooledVar_length panels _ (fun p hp => (hwf p hp).2.1)
  · exact pooledVar_length panels _ (fun p hp => (hwf p hp).2.2.1)
  · exact pooledVar_length panels _ (fun p hp => (hwf p hp).2.2.2)
  · intro t j ht hj
    exact ⟨pooledVar_getD panels _ (fun p hp => (hwf p hp).1) t j ht hj,
           pooledVar_getD panels _ (fun p hp => (hwf p hp).2.1) t j ht hj,
           pooledVar_getD panels _ (fun p hp => (hwf p hp).2.2.1) t j ht hj,
           pooledVar_getD panels _ (fun p hp => (hwf p hp).2.2.2) t j ht hj⟩

/-- Witness for C6 on two concrete panels with population counts 2 and 1:
pooled length is 3 and position offset(1) + 0 of the pooled assets reads
type 1's first agent. -/
theorem pooled_arrays_witness :
    (aLvlAll [⟨2, [1, 2], [3, 4], [5, 6], [7, 8]⟩, ⟨1, [9], [10], [11], [12]⟩]).length =
      ([⟨2, [1, 2], [3, 4], [5, 6], [7, 8]⟩,
        (⟨1, [9], [10], [11], [12]⟩ : SimPanel)].map (fun p => p.AgentCount)).sum ∧
    (aLvlAll [⟨2, [1, 2], [3, 4], [5, 6], [7, 8]⟩, ⟨1, [9], [10], [11], [12]⟩]).getD
        (typeOffset [⟨2, [1, 2], [3, 4], [5, 6], [7, 8]⟩, ⟨1, [9], [10], [11], [12]⟩] 1 + 0) 0 =
      (([⟨2, [1, 2], [3, 4], [5, 6], [7, 8]⟩,
         (⟨1, [9], [10], [11], [12]⟩ : SimPanel)].getD 1 emptyPanel).aLvl).getD 0 0 :=
  ⟨((pooled_arrays_concatenated_aligned
      [⟨2, [1, 2], [3, 4], [5, 6], [7, 8]⟩, ⟨1, [9], [10], [11], [12]⟩]
      (by intro p hp
          rcases List.mem_cons.mp hp with rfl | hp2
          · exact ⟨rfl, rfl, rfl, rfl⟩
          · rcases List.mem_cons.mp hp2 with rfl | hp3
            · exact ⟨rfl, rfl, rfl, rfl⟩
            · exact absurd hp3 (List.not_mem_nil p))).1).2.1,
   (((pooled_arrays_concatenated_aligned
      [⟨2, [1, 2], [3, 4], [5, 6], [7, 8]⟩, ⟨1, [9], [10], [11], [12]⟩]
      (by intro p hp
          rcases List.mem_cons.mp hp with rfl | hp2
          · exact ⟨rfl, rfl, rfl, rfl⟩
          · rcases List.mem_cons.mp hp2 with rfl | hp3
            · exact ⟨rfl, rfl, rfl, rfl⟩
            · exact absurd hp3 (List.not_mem_nil p))).2) 1 0 (by decide) (by decide)).2.1⟩

end ClaimC6

section ClaimC1

attribute [local semireducible] Rat.add Rat.mul Rat.sub Rat.inv

/-- C1: the Gini the experiment returns is 1 - 2 times the single Lorenz share
at the first interior grid percentile 0.001 (the second entry of the
one-dimensional endpoint-extended share array), not 1 - 2 times the mean over
the entire array.  Evaluated at an equal-wealth population of 100 agents each
holding 5, the experiment's formula returns 1 — maximal inequality — while the
mean over the entire endpoint-extended share array gives 1 - 2·mean = 2/203,
which is 0 within the tolerance of the 201-point percentile grid. -/
theorem gini_formula_reads_single_share :
    (∀ {Policy : Type} (solve : SolveView → Policy)
      (simulate : Policy → AgentState → SimPanel) (CorrAct CorrPcvd c s : ℚ),
      (runRoszypalSchlaffmanExperiment solve simulate CorrAct CorrPcvd c s).Gini =
        1 - 2 * (lorenzWithEndpoints
          (aLvlAll (typeList solve simulate CorrAct CorrPcvd c s))).getD 1 0) ∧
    giniOf (List.replicate 100 5) = 1 ∧
    1 - 2 * mean (lorenzWithEndpoints (List.replicate 100 5)) = 2 / 203 := by
  refine ⟨?_, ?_, ?_⟩
  · intro Policy solve simulate CA CP c s
    rfl
  · decide
  · decide

end ClaimC1

section ClaimC7

attribute [local semireducible] Rat.add Rat.mul Rat.sub Rat.inv

/-- C7: the experiment's aggregate wealth-to-income ratio is the mean of the
pooled asset array divided by the mean of the pooled permanent-income array;
for the two concrete types with panels assets [2, 4] / income [1, 1] and assets
[6, 8] / income [1, 1], the pooled mean assets is 5, the pooled mean income is
1, and the ratio is exactly 5. -/
theorem agg_wealth_ratio_mean_over_mean :
    (∀ {Policy : Type} (solve : SolveView → Policy)
      (simulate : Policy → AgentState → SimPanel) (CorrAct CorrPcvd c s : ℚ),
      (runRoszypalSchlaffmanExperiment solve simulate CorrAct CorrPcvd c s).AggWealthRatio =
        mean (aLvlAll (typeList solve simulate CorrAct CorrPcvd c s)) /
          mean (pLvlAll (typeList solve simulate CorrAct CorrPcvd c s))) ∧
    mean (aLvlAll [⟨2, [0, 0], [2, 4], [0, 0], [1, 1]⟩, ⟨2, [0, 0], [6, 8], [0, 0], [1, 1]⟩]) = 5 ∧
    mean (pLvlAll [⟨2, [0, 0], [2, 4], [0, 0], [1, 1]⟩, ⟨2, [0, 0], [6, 8], [0, 0], [1, 1]⟩]) = 1 ∧
    aggWealthRatioOf
        (aLvlAll [⟨2, [0, 0], [2, 4], [0, 0], [1, 1]⟩, ⟨2, [0, 0], [6, 8], [0, 0], [1, 1]⟩])
        (pLvlAll [⟨2, [0, 0], [2, 4], [0, 0], [1, 1]⟩, ⟨2, [0, 0], [6, 8], [0, 0], [1, 1]⟩]) =
      5 := by
  refine ⟨?_, ?_, ?_, ?_⟩
  · intro Policy solve simulate CA CP c s
    rfl
  · decide
  · decide
  · decide

end ClaimC7

end DemARK
